import Mathlib

/-!
Verification of the helioscope repository's patch-tiling inference pipeline.

The development shallowly embeds `src/modeltester_UI_mit.py` (patch
extraction, mask stitching, pixel counting, area conversion, CLI entry) and
the stdout-parsing logic of the Streamlit caller in
`src/helioscopefinal_mit.py`.  Machine reals (Python floats) are modelled as
exact rationals; images are H×W grids of RGB samples; the pretrained
segmentation network (together with the albumentations normalisation
transform, which does not change patch geometry) is abstracted as an
arbitrary function from a patch to a predicted per-pixel label grid, since
every property below is independent of the learned weights.
-/

namespace Helioscope

/-- Configuration constant `PATCH_SIZE = 128` from `modeltester_UI_mit.py`. -/
def PATCH_SIZE : Nat := 128

/-- Configuration constant `STRIDE = 128` from `modeltester_UI_mit.py`. -/
def STRIDE : Nat := 128

/-- Configuration constant `PIXEL_AREA_M2 = 0.09`; the Python float literal
`0.09` is modelled as the exact rational 9/100. -/
def PIXEL_AREA_M2 : ℚ := 9 / 100

/-- An RGB sample (the uint8 range of the samples is immaterial to every
property proved here). -/
def Pixel : Type := Nat × Nat × Nat

/-- A loaded raster image after `src.read([1,2,3])` and the CHW→HWC
transpose: height, width, and the sample at each (row, column). -/
structure Image where
  H : Nat
  W : Nat
  pixel : Nat → Nat → Pixel

/-- A patch: a sub-view of an image, addressed by local (row, column). -/
def Patch : Type := Nat → Nat → Pixel

/-- The sub-view `image[y:y+size, x:x+size]` (the slice never exceeds the
image bounds at the offsets generated below, so no clamping is involved). -/
def patchAt (img : Image) (y x : Nat) : Patch :=
  fun i j => img.pixel (y + i) (x + j)

/-- Python's `range(0, stop, step)` for a positive `step`; `stop` is an
integer because the tiling loop uses `H - size + 1`, which is negative when
the image is smaller than one patch.  The result is the list of naturals
`0, step, 2*step, …` strictly below `stop`. -/
def pyRange0 (stop : Int) (step : Nat) : List Nat :=
  (List.range (if stop ≤ 0 then 0 else (stop - 1).toNat / step + 1)).map
    (fun i => i * step)

/-- Embedding of `extract_patches(image, size, stride)` (lines 32–40):
returns the patch list, the `(y, x)` offset list in generation order
(`y` outer loop, `x` inner loop), and the image dimensions `H, W`. -/
def extract_patches (img : Image) (size stride : Nat) :
    List Patch × List (Nat × Nat) × Nat × Nat :=
  let ys := pyRange0 ((img.H : Int) - size + 1) stride
  let xs := pyRange0 ((img.W : Int) - size + 1) stride
  let positions := ys.flatMap (fun y => xs.map (fun x => (y, x)))
  (positions.map (fun p => patchAt img p.1 p.2), positions, img.H, img.W)

/-- The model abstraction: the composite of the normalisation transform,
the network forward pass and the per-pixel argmax, mapping a patch to its
predicted label grid (addressed by local row and column within the patch). -/
def Model : Type := Patch → Nat → Nat → Nat

/-- A 2-D label buffer with explicit shape, as allocated by
`np.zeros((H, W), dtype=np.uint8)`. -/
structure Mask where
  rows : Nat
  cols : Nat
  val : Nat → Nat → Nat

/-- The slice assignment `mask[y:y+size, x:x+size] = pred`. -/
def writePatch (m : Nat → Nat → Nat) (y x size : Nat)
    (pred : Nat → Nat → Nat) : Nat → Nat → Nat :=
  fun i j =>
    if y ≤ i ∧ i < y + size ∧ x ≤ j ∧ j < x + size then pred (i - y) (j - x)
    else m i j

/-- The count `np.sum(grid == 1)` over a `rows × cols` label grid. -/
def maskOnes (m : Nat → Nat → Nat) (rows cols : Nat) : Nat :=
  ∑ i ∈ Finset.range rows, ∑ j ∈ Finset.range cols,
    (if m i j = 1 then 1 else 0)

/-- One iteration of the stitching loop in `infer_full_mask` (lines 48–55):
predict the patch's mask, write it at its offset, and add its rooftop-pixel
count to the running total. -/
def stitchStep (model : Model) (size : Nat) (acc : Mask × Nat)
    (pp : Patch × Nat × Nat) : Mask × Nat :=
  let pred := model pp.1
  (⟨acc.1.rows, acc.1.cols,
    writePatch acc.1.val pp.2.1 pp.2.2 size pred⟩,
   acc.2 + maskOnes pred size size)

/-- Embedding of `infer_full_mask(model, image)` (lines 43–57): extract the
patches with the default size/stride, fold the stitching loop over the
zipped (patch, position) list starting from an all-zero `H × W` mask and a
zero total, and return the final mask and rooftop-pixel total. -/
def infer_full_mask (model : Model) (img : Image) : Mask × Nat :=
  let r := extract_patches img PATCH_SIZE STRIDE
  (r.1.zip r.2.1).foldl (stitchStep model PATCH_SIZE)
    (⟨r.2.2.1, r.2.2.2, fun _ _ => 0⟩, 0)

/-- Membership in the tiled rectangle of size `size` anchored at offset
`p = (y, x)`. -/
def inRect (size : Nat) (p : Nat × Nat) (i j : Nat) : Prop :=
  p.1 ≤ i ∧ i < p.1 + size ∧ p.2 ≤ j ∧ j < p.2 + size

instance (size : Nat) (p : Nat × Nat) (i j : Nat) :
    Decidable (inRect size p i j) := by
  unfold inRect; infer_instance

/-- Separation of two `size × size` rectangles along rows or columns. -/
def rectSep (size : Nat) (p q : Nat × Nat) : Prop :=
  p.1 + size ≤ q.1 ∨ q.1 + size ≤ p.1 ∨ p.2 + size ≤ q.2 ∨ q.2 + size ≤ p.2

/-- A concrete all-black 200×200 RGB image. -/
def img200 : Image := ⟨200, 200, fun _ _ => (0, 0, 0)⟩

/-- A concrete all-black 256×256 RGB image. -/
def img256 : Image := ⟨256, 256, fun _ _ => (0, 0, 0)⟩

/-- A concrete all-black 100×100 RGB image (smaller than one patch). -/
def img100 : Image := ⟨100, 100, fun _ _ => (0, 0, 0)⟩

/-- A model predicting background everywhere. -/
def modelZero : Model := fun _ _ _ => 0

/-- The mask-buffer part of the stitching loop in isolation: fold the slice
assignments of the loop over a starting buffer. -/
def stitchWrites (model : Model) (size : Nat) (l : List (Patch × Nat × Nat))
    (m0 : Nat → Nat → Nat) : Nat → Nat → Nat :=
  l.foldl (fun mv pp => writePatch mv pp.2.1 pp.2.2 size (model pp.1)) m0

/-- Decimal digit characters of a natural number, most significant first:
the rendering of Python's `str(n)` / `f"{n}"` for a nonnegative integer.
The fuel argument bounds the recursion; `n + 1` units always suffice. -/
def natCharsAux : Nat → Nat → List Char → List Char
  | 0, _, acc => acc
  | fuel + 1, n, acc =>
    if n < 10 then Nat.digitChar n :: acc
    else natCharsAux fuel (n / 10) (Nat.digitChar (n % 10) :: acc)

/-- Decimal rendering of a natural number. -/
def natChars (n : Nat) : List Char := natCharsAux (n + 1) n []

/-- The numeric value denoted by a list of decimal digit characters; used
only to state that the printed text denotes the computed numbers. -/
def charsVal (l : List Char) : Nat :=
  l.foldl (fun a c => 10 * a + (c.toNat - 48)) 0

/-- Rendering of Python's `f"{q:.2f}"` for a nonnegative rational: the
number of hundredths, rounded to nearest, printed as `<int>.<two digits>`.
(The program only ever formats multiples of 1/100, where every rounding
convention agrees.) -/
def formatFixed2 (q : ℚ) : List Char :=
  let c := (round (100 * q)).toNat
  natChars (c / 100) ++
    '.' :: ((if c % 100 < 10 then ['0'] else []) ++ natChars (c % 100))

/-- The machine-readable key of the pixel-count line. -/
def pixelsKey : String := "ROOFTOP_PIXELS:"

/-- The machine-readable key of the area line. -/
def areaKey : String := "ROOFTOP_AREA:"

/-- The stdout lines printed by `main` (lines 60–95) on a successful run,
in order: three progress lines, the two human-readable result lines, then
the sentinel-delimited machine-readable block.  Python renders the
human-readable area as `str(round(area, 2))`; its exact float spelling is
immaterial to every property below (only the line's leading text matters),
so it is rendered with the same two-decimal formatter. -/
def mainOutput (model : Model) (img : Image) : List String :=
  let pixels := (infer_full_mask model img).2
  let area : ℚ := (pixels : ℚ) * PIXEL_AREA_M2
  ["Loading model...",
   "Reading image...",
   "Running inference...",
   "Rooftop Pixels: " ++ String.mk (natChars pixels),
   "Estimated Rooftop Area: " ++ String.mk (formatFixed2 area) ++ " m²",
   "RESULTS_START",
   pixelsKey ++ String.mk (natChars pixels),
   areaKey ++ String.mk (formatFixed2 area),
   "RESULTS_END"]

/-- Python's `str.startswith`, on the character-list view of strings. -/
def strPrefixOf (p s : String) : Bool := p.data.isPrefixOf s.data

/-- Python's `line.split(":")[1]`: the text strictly between the first
colon and the following colon (or the end of the line). -/
def splitColonSecond (line : String) : String :=
  ⟨((line.data.dropWhile (fun c => c != ':')).drop 1).takeWhile
    (fun c => c != ':')⟩

/-- Embedding of the stdout scan of the Streamlit caller
(`helioscopefinal_mit.py` lines 176–180): walk the lines in order; a line
starting with `ROOFTOP_PIXELS:` replaces the first extracted value with the
text after the colon, otherwise a line starting with `ROOFTOP_AREA:`
replaces the second. -/
def parseResults (lines : List String) : Option String × Option String :=
  lines.foldl
    (fun acc line =>
      if strPrefixOf pixelsKey line then (some (splitColonSecond line), acc.2)
      else if strPrefixOf areaKey line then (acc.1, some (splitColonSecond line))
      else acc)
    (none, none)

/-- The observable outcome of one process invocation: the exit status and
the stdout lines. -/
structure RunResult where
  exitCode : Nat
  stdout : List String

/-- Embedding of the `__main__` block (lines 97–107): an argument vector
whose length differs from 2 prints a usage line and exits 1; a path that
does not exist prints an error naming the path and exits 1; otherwise
`main` runs on the path.  `argv` includes the program name, `pathExists`
abstracts `os.path.exists`, and `runMain` abstracts the body of `main`. -/
def runnerEntry (argv : List String) (pathExists : String → Bool)
    (runMain : String → RunResult) : RunResult :=
  if h : argv.length = 2 then
    let p := argv.get ⟨1, by omega⟩
    if pathExists p then runMain p
    else ⟨1, ["Error: Image file " ++ p ++ " not found"]⟩
  else ⟨1, ["Usage: python modeltester_UI.py <image_path>"]⟩

/-- An input raster file as the load step sees it: whether the file can be
opened, its band count, its dimensions and its per-band samples. -/
structure RasterFile where
  readable : Bool
  bands : Nat
  H : Nat
  W : Nat
  sample : Nat → Nat → Nat → Nat

/-- The failure modes of the load step. -/
inductive ImageReadError where
  | unreadable : ImageReadError
  | tooFewBands : Nat → ImageReadError

/-- Modelled from the spec: the load step (`rasterio.open` plus
`src.read([1, 2, 3])` plus the CHW→HWC transpose, lines 64–67) delegates
its failure behavior to the external rasterio library, which is not part
of this repository's sources; spec §4.2 specifies that it "fails with
`ImageReadError` if the file is unreadable or has <3 bands", and otherwise
yields the H×W×3 image of the first three bands. -/
def loadImage (f : RasterFile) : Except ImageReadError Image :=
  if f.readable = false then .error .unreadable
  else if f.bands < 3 then .error (.tooFewBands f.bands)
  else .ok ⟨f.H, f.W, fun i j => (f.sample 1 i j, f.sample 2 i j, f.sample 3 i j)⟩

/-- Embedding of `main` (lines 60–95) at the level of observable process
behavior: a failing load aborts the process with a nonzero exit status
(Python's uncaught-exception exit) after only the progress lines printed
before the failure; a successful load runs inference and prints
`mainOutput`, exiting 0. -/
def mainRun (model : Model) (f : RasterFile) : RunResult :=
  match loadImage f with
  | .error _ => ⟨1, ["Loading model...", "Reading image..."]⟩
  | .ok img => ⟨0, mainOutput model img⟩

/-- An argument vector holding only the program name. -/
def argvOne : List String := ["modeltester_UI.py"]

/-- A path-existence oracle that affirms every path. -/
def pathAlways : String → Bool := fun _ => true

/-- A stand-in for the body of `main` that succeeds with empty output. -/
def runMainStub : String → RunResult := fun _ => ⟨0, []⟩

/-- An unreadable raster file. -/
def badFile : RasterFile := ⟨false, 0, 0, 0, fun _ _ _ => 0⟩

/-- The sum of a constant-valued map is the length times the constant. -/
theorem sum_map_constNat {α : Type} (l : List α) (k : Nat) :
    (l.map (fun _ => k)).sum = l.length * k := by
  induction l with
  | nil => simp
  | cons a l ih => simp [ih, Nat.succ_mul, Nat.add_comm]

/-- The patch list and the offset list of `extract_patches` have the same
length. -/
theorem extract_patches_lengths (img : Image) (size stride : Nat) :
    (extract_patches img size stride).1.length =
      (extract_patches img size stride).2.1.length := by
  simp [extract_patches]

/-- The offset list is the row-major product of the per-axis offset lists,
so its length is the product of their lengths. -/
theorem positions_length (img : Image) (size stride : Nat) :
    (extract_patches img size stride).2.1.length =
      (pyRange0 ((img.H : Int) - size + 1) stride).length *
        (pyRange0 ((img.W : Int) - size + 1) stride).length := by
  simp only [extract_patches, List.length_flatMap, Function.comp_def,
    List.length_map]
  exact sum_map_constNat
    (pyRange0 ((img.H : Int) - size + 1) stride)
    (pyRange0 ((img.W : Int) - size + 1) stride).length

/-- With size = stride = 128 the per-axis offset count is `H / 128`, for
every axis length `H` (zero when `H < 128`). -/
theorem tileCount (H : Nat) :
    (pyRange0 ((H : Int) - 128 + 1) 128).length = H / 128 := by
  simp only [pyRange0, List.length_map, List.length_range]
  split <;> omega

/-- Every offset produced by `pyRange0` for the tiling loop is a multiple of
the stride and leaves room for a full patch before the axis end. -/
theorem pyRange0_bound (H size stride y : Nat)
    (hy : y ∈ pyRange0 ((H : Int) - size + 1) stride) :
    stride ∣ y ∧ y + size ≤ H := by
  unfold pyRange0 at hy
  rcases List.mem_map.1 hy with ⟨i, hi, rfl⟩
  rw [List.mem_range] at hi
  split at hi
  · omega
  · refine ⟨Dvd.intro i (Nat.mul_comm stride i), ?_⟩
    have h1 : i ≤ ((((H : Int) - size + 1) - 1).toNat) / stride :=
      Nat.lt_succ_iff.mp hi
    have h2 : i * stride ≤ (((H : Int) - size + 1) - 1).toNat :=
      le_trans (Nat.mul_le_mul_right _ h1) (Nat.div_mul_le_self _ _)
    omega

/-- When the axis is shorter than one patch, the tiling loop is empty. -/
theorem pyRange0_eq_nil {stop : Int} (step : Nat) (h : stop ≤ 0) :
    pyRange0 stop step = [] := by
  simp [pyRange0, h]

/-- When the image is shorter or narrower than one patch, no offsets (and
hence no patches) are generated. -/
theorem positions_eq_nil (img : Image) (h : img.H < 128 ∨ img.W < 128) :
    (extract_patches img 128 128).2.1 = [] := by
  rcases h with h | h
  · have : pyRange0 ((img.H : Int) - 128 + 1) 128 = [] :=
      pyRange0_eq_nil 128 (by omega)
    simp [extract_patches, this]
  · have : pyRange0 ((img.W : Int) - 128 + 1) 128 = [] :=
      pyRange0_eq_nil 128 (by omega)
    simp [extract_patches, this]

/-- Claim C7: for a 256×256×3 image with patch size 128 and stride 128,
`extract_patches` yields exactly 4 patches whose offsets, in generation
order, are (0,0), (0,128), (128,0), (128,128): tiling starts at (0,0) and
advances by the stride along the width first, then the height. -/
theorem c7_extract_patches_256 :
    (extract_patches img256 128 128).1.length = 4 ∧
    (extract_patches img256 128 128).2.1 =
      [(0, 0), (0, 128), (128, 0), (128, 128)] := by
  constructor <;> rfl

/-- Claim C1: for every image with height and width at least 128, patch size
128 and stride 128 produce exactly `floor(H/128) * floor(W/128)` patches; a
200×200×3 image yields exactly one patch, at offset (0,0), and no patch
covers any pixel of the remaining border (every covered pixel has both
coordinates below 128). -/
theorem c1_patch_count (img : Image) (h1 : 128 ≤ img.H) (h2 : 128 ≤ img.W) :
    (extract_patches img 128 128).1.length = img.H / 128 * (img.W / 128) ∧
    (img.H = 200 → img.W = 200 →
      (extract_patches img 128 128).2.1 = [(0, 0)] ∧
      ∀ p ∈ (extract_patches img 128 128).2.1, ∀ i j,
        inRect 128 p i j → i < 128 ∧ j < 128) := by
  constructor
  · rw [extract_patches_lengths, positions_length]
    push_cast
    rw [tileCount, tileCount]
  · intro hH hW
    have hpos : (extract_patches img 128 128).2.1 = [(0, 0)] := by
      simp only [extract_patches, hH, hW]
      rfl
    refine ⟨hpos, ?_⟩
    intro p hp i j hij
    rw [hpos] at hp
    simp only [List.mem_singleton] at hp
    subst hp
    rcases hij with ⟨_, hi, _, hj⟩
    omega

/-- Witness for `c1_patch_count` at the concrete 200×200×3 image. -/
theorem c1_patch_count_witness :
    128 ≤ img200.H ∧ 128 ≤ img200.W ∧
    ((extract_patches img200 128 128).1.length =
        img200.H / 128 * (img200.W / 128) ∧
      (img200.H = 200 → img200.W = 200 →
        (extract_patches img200 128 128).2.1 = [(0, 0)] ∧
        ∀ p ∈ (extract_patches img200 128 128).2.1, ∀ i j,
          inRect 128 p i j → i < 128 ∧ j < 128)) :=
  ⟨by decide, by decide, c1_patch_count img200 (by decide) (by decide)⟩

/-- The running total of the stitching loop accumulates exactly the sum of
the per-patch rooftop-pixel counts of the processed list. -/
theorem foldl_stitch_snd (model : Model) (s : Nat) :
    ∀ (l : List (Patch × Nat × Nat)) (acc : Mask × Nat),
      (l.foldl (stitchStep model s) acc).2 =
        acc.2 + (l.map (fun pp => maskOnes (model pp.1) s s)).sum := by
  intro l
  induction l with
  | nil => simp
  | cons a l ih =>
    intro acc
    rw [List.foldl_cons, ih]
    simp [stitchStep, Nat.add_assoc]

/-- The stitching loop never changes the allocated shape of the mask. -/
theorem foldl_stitch_shape (model : Model) (s : Nat) :
    ∀ (l : List (Patch × Nat × Nat)) (acc : Mask × Nat),
      (l.foldl (stitchStep model s) acc).1.rows = acc.1.rows ∧
      (l.foldl (stitchStep model s) acc).1.cols = acc.1.cols := by
  intro l
  induction l with
  | nil => simp
  | cons a l ih =>
    intro acc
    rw [List.foldl_cons]
    exact ih _

/-- The mask buffer computed by the stitching loop is the fold of the slice
assignments alone. -/
theorem foldl_stitch_val (model : Model) (s : Nat) :
    ∀ (l : List (Patch × Nat × Nat)) (acc : Mask × Nat),
      (l.foldl (stitchStep model s) acc).1.val =
        stitchWrites model s l acc.1.val := by
  intro l
  induction l with
  | nil => intro acc; rfl
  | cons a l ih =>
    intro acc
    rw [List.foldl_cons, ih]
    rfl

/-- Zipping a mapped list with the list itself pairs each element with its
image. -/
theorem zip_map_self {α β : Type} (f : α → β) (l : List α) :
    (l.map f).zip l = l.map (fun a => (f a, a)) := by
  have h := List.zip_map' f id l
  rw [List.map_id] at h
  exact h

/-- The zipped (patch, offset) list processed by `infer_full_mask` is the
offset list with each offset paired with its sub-view. -/
theorem zip_patches_positions (img : Image) (size stride : Nat) :
    (extract_patches img size stride).1.zip
        (extract_patches img size stride).2.1 =
      (extract_patches img size stride).2.1.map
        (fun p => (patchAt img p.1 p.2, p)) := by
  simp only [extract_patches]
  exact zip_map_self _ _

/-- Claim C2: the rooftop-pixel total returned by `infer_full_mask` is the
sum, over all generated patches, of the number of pixels predicted as label
1 in that patch's mask, and running the stitching loop over any permutation
of the (patch, offset) list produces the same total. -/
theorem c2_total_is_sum_and_perm_invariant (model : Model) (img : Image)
    (l' : List (Patch × Nat × Nat))
    (hperm : l'.Perm ((extract_patches img PATCH_SIZE STRIDE).1.zip
      (extract_patches img PATCH_SIZE STRIDE).2.1)) :
    (infer_full_mask model img).2 =
      ((extract_patches img PATCH_SIZE STRIDE).1.map
        (fun p => maskOnes (model p) PATCH_SIZE PATCH_SIZE)).sum ∧
    (l'.foldl (stitchStep model PATCH_SIZE)
        (⟨img.H, img.W, fun _ _ => 0⟩, 0)).2 =
      (infer_full_mask model img).2 := by
  have hlen : (extract_patches img PATCH_SIZE STRIDE).1.length ≤
      (extract_patches img PATCH_SIZE STRIDE).2.1.length := by
    rw [extract_patches_lengths]
  have hfst : ((extract_patches img PATCH_SIZE STRIDE).1.zip
      (extract_patches img PATCH_SIZE STRIDE).2.1).map Prod.fst =
      (extract_patches img PATCH_SIZE STRIDE).1 :=
    List.map_fst_zip _ _ hlen
  have hmaps : ((extract_patches img PATCH_SIZE STRIDE).1.zip
        (extract_patches img PATCH_SIZE STRIDE).2.1).map
          (fun pp => maskOnes (model pp.1) PATCH_SIZE PATCH_SIZE) =
      (extract_patches img PATCH_SIZE STRIDE).1.map
        (fun p => maskOnes (model p) PATCH_SIZE PATCH_SIZE) := by
    conv_rhs => rw [← hfst]
    rw [List.map_map]
    rfl
  have hmain : (infer_full_mask model img).2 =
      ((extract_patches img PATCH_SIZE STRIDE).1.map
        (fun p => maskOnes (model p) PATCH_SIZE PATCH_SIZE)).sum := by
    show ((((extract_patches img PATCH_SIZE STRIDE).1.zip
        (extract_patches img PATCH_SIZE STRIDE).2.1)).foldl
          (stitchStep model PATCH_SIZE) _).2 = _
    rw [foldl_stitch_snd, Nat.zero_add, hmaps]
  refine ⟨hmain, ?_⟩
  rw [foldl_stitch_snd, Nat.zero_add, hmain]
  calc (l'.map (fun pp => maskOnes (model pp.1) PATCH_SIZE PATCH_SIZE)).sum
      = (((extract_patches img PATCH_SIZE STRIDE).1.zip
          (extract_patches img PATCH_SIZE STRIDE).2.1).map
            (fun pp => maskOnes (model pp.1) PATCH_SIZE PATCH_SIZE)).sum :=
        List.Perm.sum_eq (hperm.map _)
    _ = ((extract_patches img PATCH_SIZE STRIDE).1.map
          (fun p => maskOnes (model p) PATCH_SIZE PATCH_SIZE)).sum := by
        rw [hmaps]

/-- Witness for `c2_total_is_sum_and_perm_invariant` at a 100×100 image
(whose patch list is empty) with the all-background model and the empty
permutation. -/
theorem c2_total_is_sum_and_perm_invariant_witness :
    List.Perm ([] : List (Patch × Nat × Nat))
        ((extract_patches img100 PATCH_SIZE STRIDE).1.zip
          (extract_patches img100 PATCH_SIZE STRIDE).2.1) ∧
    ((infer_full_mask modelZero img100).2 =
        ((extract_patches img100 PATCH_SIZE STRIDE).1.map
          (fun p => maskOnes (modelZero p) PATCH_SIZE PATCH_SIZE)).sum ∧
      (([] : List (Patch × Nat × Nat)).foldl (stitchStep modelZero PATCH_SIZE)
          (⟨img100.H, img100.W, fun _ _ => 0⟩, 0)).2 =
        (infer_full_mask modelZero img100).2) :=
  ⟨List.Perm.nil,
   c2_total_is_sum_and_perm_invariant modelZero img100 [] List.Perm.nil⟩

/-- Restricting a row sum of length `W` to a window of length `n` starting
at `x` (with the window inside the row) reindexes it over the window. -/
theorem sum_window (W x n : Nat) (h : x + n ≤ W) (g : Nat → Nat) :
    ∑ j ∈ Finset.range W, (if x ≤ j ∧ j < x + n then g (j - x) else 0) =
      ∑ b ∈ Finset.range n, g b := by
  have hsub : Finset.Ico x (x + n) ⊆ Finset.range W := by
    intro j hj
    rw [Finset.mem_Ico] at hj
    rw [Finset.mem_range]
    omega
  have key : ∑ j ∈ Finset.range W,
      (if x ≤ j ∧ j < x + n then g (j - x) else 0) =
      ∑ j ∈ Finset.Ico x (x + n),
        (if x ≤ j ∧ j < x + n then g (j - x) else 0) := by
    refine (Finset.sum_subset hsub ?_).symm
    intro j _ hj
    rw [Finset.mem_Ico] at hj
    exact if_neg (by omega)
  rw [key, Finset.sum_Ico_eq_sum_range]
  simp only [Nat.add_sub_cancel_left]
  refine Finset.sum_congr rfl ?_
  intro k hk
  rw [Finset.mem_range] at hk
  rw [if_pos (by omega)]

/-- Writing a patch into a region of the buffer that currently holds only
zeros adds exactly the patch's rooftop-pixel count to the buffer's count,
provided the region lies inside the counted `H × W` area. -/
theorem maskOnes_writePatch (m pred : Nat → Nat → Nat) (y x s H W : Nat)
    (hy : y + s ≤ H) (hx : x + s ≤ W)
    (hz : ∀ i j, inRect s (y, x) i j → m i j = 0) :
    maskOnes (writePatch m y x s pred) H W =
      maskOnes m H W + maskOnes pred s s := by
  have hcell : ∀ i j,
      (if writePatch m y x s pred i j = 1 then 1 else 0) =
        (if m i j = 1 then 1 else 0) +
          (if y ≤ i ∧ i < y + s ∧ x ≤ j ∧ j < x + s
            then (if pred (i - y) (j - x) = 1 then 1 else 0) else 0) := by
    intro i j
    unfold writePatch
    by_cases hin : y ≤ i ∧ i < y + s ∧ x ≤ j ∧ j < x + s
    · rw [if_pos hin, if_pos hin,
        hz i j ⟨hin.1, hin.2.1, hin.2.2.1, hin.2.2.2⟩]
      simp
    · rw [if_neg hin, if_neg hin, Nat.add_zero]
  unfold maskOnes
  calc ∑ i ∈ Finset.range H, ∑ j ∈ Finset.range W,
        (if writePatch m y x s pred i j = 1 then 1 else 0)
      = ∑ i ∈ Finset.range H, ∑ j ∈ Finset.range W,
          ((if m i j = 1 then 1 else 0) +
            (if y ≤ i ∧ i < y + s ∧ x ≤ j ∧ j < x + s
              then (if pred (i - y) (j - x) = 1 then 1 else 0) else 0)) :=
        Finset.sum_congr rfl (fun i _ =>
          Finset.sum_congr rfl (fun j _ => hcell i j))
    _ = (∑ i ∈ Finset.range H, ∑ j ∈ Finset.range W,
          (if m i j = 1 then 1 else 0)) +
        ∑ i ∈ Finset.range H, ∑ j ∈ Finset.range W,
          (if y ≤ i ∧ i < y + s ∧ x ≤ j ∧ j < x + s
            then (if pred (i - y) (j - x) = 1 then 1 else 0) else 0) := by
        rw [← Finset.sum_add_distrib]
        exact Finset.sum_congr rfl (fun i _ => Finset.sum_add_distrib)
    _ = (∑ i ∈ Finset.range H, ∑ j ∈ Finset.range W,
          (if m i j = 1 then 1 else 0)) +
        ∑ a ∈ Finset.range s, ∑ b ∈ Finset.range s,
          (if pred a b = 1 then 1 else 0) := by
        congr 1
        have hrow : ∀ i, (∑ j ∈ Finset.range W,
            (if y ≤ i ∧ i < y + s ∧ x ≤ j ∧ j < x + s
              then (if pred (i - y) (j - x) = 1 then 1 else 0) else 0)) =
            (if y ≤ i ∧ i < y + s
              then ∑ b ∈ Finset.range s,
                (if pred (i - y) b = 1 then 1 else 0)
              else 0) := by
          intro i
          by_cases hi : y ≤ i ∧ i < y + s
          · rw [if_pos hi, ← sum_window W x s hx
              (fun b => if pred (i - y) b = 1 then 1 else 0)]
            refine Finset.sum_congr rfl ?_
            intro j _
            by_cases hj : x ≤ j ∧ j < x + s
            · rw [if_pos ⟨hi.1, hi.2, hj.1, hj.2⟩, if_pos hj]
            · rw [if_neg (by tauto), if_neg hj]
          · rw [if_neg hi]
            refine Finset.sum_eq_zero ?_
            intro j _
            exact if_neg (by tauto)
        rw [Finset.sum_congr rfl (fun i _ => hrow i)]
        exact sum_window H y s hy
          (fun a => ∑ b ∈ Finset.range s, (if pred a b = 1 then 1 else 0))

/-- Folding the slice assignments of a list whose rectangles lie inside the
counted area, are pairwise separated, and land on all-zero cells of the
starting buffer adds exactly the per-patch counts to the buffer's count. -/
theorem stitchWrites_ones (model : Model) (s H W : Nat) :
    ∀ (l : List (Patch × Nat × Nat)) (m0 : Nat → Nat → Nat),
      (∀ pp ∈ l, pp.2.1 + s ≤ H ∧ pp.2.2 + s ≤ W) →
      (∀ pp ∈ l, ∀ i j, inRect s pp.2 i j → m0 i j = 0) →
      l.Pairwise (fun a b => rectSep s a.2 b.2) →
      maskOnes (stitchWrites model s l m0) H W =
        maskOnes m0 H W +
          (l.map (fun pp => maskOnes (model pp.1) s s)).sum := by
  intro l
  induction l with
  | nil => intro m0 _ _ _; simp [stitchWrites]
  | cons a l ih =>
    intro m0 hb hz hp
    have hbnd := hb a (List.mem_cons_self a l)
    have hza := hz a (List.mem_cons_self a l)
    rw [List.pairwise_cons] at hp
    have hstep : stitchWrites model s (a :: l) m0 =
        stitchWrites model s l (writePatch m0 a.2.1 a.2.2 s (model a.1)) :=
      rfl
    have hb' : ∀ pp ∈ l, pp.2.1 + s ≤ H ∧ pp.2.2 + s ≤ W :=
      fun pp hpp => hb pp (List.mem_cons_of_mem a hpp)
    have hz' : ∀ pp ∈ l, ∀ i j, inRect s pp.2 i j →
        writePatch m0 a.2.1 a.2.2 s (model a.1) i j = 0 := by
      intro pp hpp i j hij
      have hsep := hp.1 pp hpp
      unfold writePatch
      rw [if_neg ?_]
      · exact hz pp (List.mem_cons_of_mem a hpp) i j hij
      · rcases hij with ⟨h1, h2, h3, h4⟩
        rcases hsep with h | h | h | h <;> (intro hc; omega)
    rw [hstep, ih _ hb' hz' hp.2,
      maskOnes_writePatch m0 (model a.1) a.2.1 a.2.2 s H W hbnd.1 hbnd.2 hza,
      List.map_cons, List.sum_cons]
    omega

/-- A cell covered by no rectangle of the list keeps its starting value
through the whole stitching fold. -/
theorem stitchWrites_outside (model : Model) (s : Nat) :
    ∀ (l : List (Patch × Nat × Nat)) (m0 : Nat → Nat → Nat) (i j : Nat),
      (∀ pp ∈ l, ¬ inRect s pp.2 i j) →
      stitchWrites model s l m0 i j = m0 i j := by
  intro l
  induction l with
  | nil => intro m0 i j _; rfl
  | cons a l ih =>
    intro m0 i j h
    have hstep : stitchWrites model s (a :: l) m0 =
        stitchWrites model s l (writePatch m0 a.2.1 a.2.2 s (model a.1)) :=
      rfl
    rw [hstep, ih _ i j (fun pp hpp => h pp (List.mem_cons_of_mem a hpp))]
    unfold writePatch
    exact if_neg (h a (List.mem_cons_self a l))

/-- Successive offsets produced by the tiling loop are separated by at
least one stride. -/
theorem pyRange0_gap (stop : Int) (step : Nat) :
    (pyRange0 stop step).Pairwise (fun a b => a + step ≤ b) := by
  unfold pyRange0
  refine List.pairwise_map.2 ?_
  refine (List.pairwise_lt_range _).imp ?_
  intro i j hij
  calc i * step + step = (i + 1) * step := (Nat.succ_mul i step).symm
    _ ≤ j * step := Nat.mul_le_mul_right step hij

/-- When the patch size does not exceed the stride, the generated offsets
have pairwise separated rectangles. -/
theorem positions_pairwise (img : Image) (s stride : Nat) (hss : s ≤ stride) :
    (extract_patches img s stride).2.1.Pairwise (fun p q => rectSep s p q) := by
  simp only [extract_patches]
  rw [List.pairwise_flatMap]
  constructor
  · intro y _
    refine List.pairwise_map.2 ?_
    refine (pyRange0_gap _ _).imp ?_
    intro x x' h
    unfold rectSep
    simp only
    omega
  · refine (pyRange0_gap _ _).imp ?_
    intro y y' h p hp q hq
    rcases List.mem_map.1 hp with ⟨x, _, rfl⟩
    rcases List.mem_map.1 hq with ⟨x', _, rfl⟩
    unfold rectSep
    simp only
    omega

/-- Every generated offset is a multiple of the stride on both axes and
leaves room for a full patch inside the image. -/
theorem positions_mem_bound (img : Image) (s stride : Nat) (p : Nat × Nat)
    (hp : p ∈ (extract_patches img s stride).2.1) :
    stride ∣ p.1 ∧ stride ∣ p.2 ∧ p.1 + s ≤ img.H ∧ p.2 + s ≤ img.W := by
  simp only [extract_patches] at hp
  rcases List.mem_flatMap.1 hp with ⟨y, hy, hp2⟩
  rcases List.mem_map.1 hp2 with ⟨x, hx, rfl⟩
  have h1 := pyRange0_bound img.H s stride y hy
  have h2 := pyRange0_bound img.W s stride x hx
  exact ⟨h1.1, h2.1, h1.2, h2.2⟩

/-- Claim C9: for every input image and every model whose per-patch output
assigns each pixel a class in {0, 1}, the total returned by
`infer_full_mask` equals the number of cells equal to 1 in the mask it
returns (counted over the mask's own allocated shape): the patch regions
written into the mask are pairwise disjoint because the stride equals the
patch size, and all unwritten cells are 0. -/
theorem c9_total_counts_mask (model : Model) (img : Image)
    (hm : ∀ p i j, model p i j = 0 ∨ model p i j = 1) :
    (infer_full_mask model img).2 =
      maskOnes (infer_full_mask model img).1.val
        (infer_full_mask model img).1.rows
        (infer_full_mask model img).1.cols := by
  have hif : infer_full_mask model img =
      ((extract_patches img PATCH_SIZE STRIDE).1.zip
        (extract_patches img PATCH_SIZE STRIDE).2.1).foldl
          (stitchStep model PATCH_SIZE)
          (⟨img.H, img.W, fun _ _ => 0⟩, 0) := rfl
  have hL := zip_patches_positions img PATCH_SIZE STRIDE
  have hshape := foldl_stitch_shape model PATCH_SIZE
    ((extract_patches img PATCH_SIZE STRIDE).1.zip
      (extract_patches img PATCH_SIZE STRIDE).2.1)
    (⟨img.H, img.W, fun _ _ => 0⟩, 0)
  have hval := foldl_stitch_val model PATCH_SIZE
    ((extract_patches img PATCH_SIZE STRIDE).1.zip
      (extract_patches img PATCH_SIZE STRIDE).2.1)
    (⟨img.H, img.W, fun _ _ => 0⟩, 0)
  have htot := foldl_stitch_snd model PATCH_SIZE
    ((extract_patches img PATCH_SIZE STRIDE).1.zip
      (extract_patches img PATCH_SIZE STRIDE).2.1)
    (⟨img.H, img.W, fun _ _ => 0⟩, 0)
  have hmask : maskOnes (stitchWrites model PATCH_SIZE
      ((extract_patches img PATCH_SIZE STRIDE).1.zip
        (extract_patches img PATCH_SIZE STRIDE).2.1) (fun _ _ => 0))
        img.H img.W =
      maskOnes (fun _ _ => 0) img.H img.W +
        (((extract_patches img PATCH_SIZE STRIDE).1.zip
          (extract_patches img PATCH_SIZE STRIDE).2.1).map
            (fun pp => maskOnes (model pp.1) PATCH_SIZE PATCH_SIZE)).sum := by
    refine stitchWrites_ones model PATCH_SIZE img.H img.W _ _ ?_ ?_ ?_
    · intro pp hpp
      rw [hL] at hpp
      rcases List.mem_map.1 hpp with ⟨p, hp, rfl⟩
      have hb := positions_mem_bound img PATCH_SIZE STRIDE p hp
      exact ⟨hb.2.2.1, hb.2.2.2⟩
    · intro pp _ i j _
      rfl
    · rw [hL]
      refine List.pairwise_map.2 ?_
      exact (positions_pairwise img PATCH_SIZE STRIDE (by decide)).imp
        (fun h => h)
  have hzero : maskOnes (fun _ _ => (0 : Nat)) img.H img.W = 0 := by
    simp [maskOnes]
  rw [hif, htot, Nat.zero_add, hval, hshape.1, hshape.2]
  show _ = maskOnes (stitchWrites model PATCH_SIZE _ _) img.H img.W
  rw [hmask, hzero, Nat.zero_add]

/-- Witness for `c9_total_counts_mask` at the all-background model on the
100×100 image. -/
theorem c9_total_counts_mask_witness :
    (∀ p i j, modelZero p i j = 0 ∨ modelZero p i j = 1) ∧
    (infer_full_mask modelZero img100).2 =
      maskOnes (infer_full_mask modelZero img100).1.val
        (infer_full_mask modelZero img100).1.rows
        (infer_full_mask modelZero img100).1.cols :=
  ⟨fun _ _ _ => Or.inl rfl,
   c9_total_counts_mask modelZero img100 (fun _ _ _ => Or.inl rfl)⟩

/-- Counterexample to claim C3 as stated: for the 200×200 image the mask
allocated by `infer_full_mask` (via `np.zeros((H, W))`) has 200 rows and
200 columns, not `floor(200/128)*128 = 128`. -/
theorem c3_counterexample_dims :
    ¬ ((infer_full_mask modelZero img200).1.rows =
          img200.H / 128 * 128 ∧
       (infer_full_mask modelZero img200).1.cols =
          img200.W / 128 * 128) := by
  intro h
  have hr : (infer_full_mask modelZero img200).1.rows = 200 := rfl
  have hd : img200.H / 128 * 128 = 128 := rfl
  rw [hr, hd] at h
  exact absurd h.1 (by decide)

/-- Claim C3 (amended): for every H×W×3 input image the stitched mask
produced by `infer_full_mask` has dimensions H × W (the full image shape,
as allocated), and every cell outside the tiled region
`[0, floor(H/128)*128) × [0, floor(W/128)*128)` — hence not covered by any
generated patch — holds the background value 0. -/
theorem c3_mask_shape_and_border (model : Model) (img : Image) :
    (infer_full_mask model img).1.rows = img.H ∧
    (infer_full_mask model img).1.cols = img.W ∧
    ∀ i j, img.H / 128 * 128 ≤ i ∨ img.W / 128 * 128 ≤ j →
      (infer_full_mask model img).1.val i j = 0 := by
  have hif : infer_full_mask model img =
      ((extract_patches img PATCH_SIZE STRIDE).1.zip
        (extract_patches img PATCH_SIZE STRIDE).2.1).foldl
          (stitchStep model PATCH_SIZE)
          (⟨img.H, img.W, fun _ _ => 0⟩, 0) := rfl
  have hshape := foldl_stitch_shape model PATCH_SIZE
    ((extract_patches img PATCH_SIZE STRIDE).1.zip
      (extract_patches img PATCH_SIZE STRIDE).2.1)
    (⟨img.H, img.W, fun _ _ => 0⟩, 0)
  refine ⟨by rw [hif]; exact hshape.1, by rw [hif]; exact hshape.2, ?_⟩
  intro i j hij
  rw [hif, foldl_stitch_val]
  refine stitchWrites_outside model PATCH_SIZE _ _ i j ?_
  intro pp hpp hin
  rw [zip_patches_positions] at hpp
  rcases List.mem_map.1 hpp with ⟨p, hp, rfl⟩
  have hb := positions_mem_bound img PATCH_SIZE STRIDE p hp
  rcases hb.1 with ⟨k, hk⟩
  rcases hb.2.1 with ⟨k', hk'⟩
  have hbH := hb.2.2.1
  have hbW := hb.2.2.2
  rcases hin with ⟨h1, h2, h3, h4⟩
  simp only [PATCH_SIZE, STRIDE] at h2 h4 hk hk' hbH hbW
  rcases hij with hij | hij <;> omega

/-- Witness for `c3_mask_shape_and_border` at the 200×200 image: the mask
is 200×200 and the border cell (150, 150) is 0. -/
theorem c3_mask_shape_and_border_witness :
    (infer_full_mask modelZero img200).1.rows = img200.H ∧
    (infer_full_mask modelZero img200).1.cols = img200.W ∧
    (img200.H / 128 * 128 ≤ 150 ∨ img200.W / 128 * 128 ≤ 150) ∧
    (infer_full_mask modelZero img200).1.val 150 150 = 0 :=
  ⟨(c3_mask_shape_and_border modelZero img200).1,
   (c3_mask_shape_and_border modelZero img200).2.1,
   Or.inl (by decide),
   (c3_mask_shape_and_border modelZero img200).2.2 150 150
     (Or.inl (by decide))⟩

/-- Digit characters decode to their digit value. -/
theorem digitChar_toNat : ∀ m < 10, (Nat.digitChar m).toNat - 48 = m := by
  decide

/-- Digit characters are never a colon. -/
theorem digitChar_ne_colon : ∀ m < 10, Nat.digitChar m ≠ ':' := by
  decide

/-- The decimal renderer only prepends digit characters to its
accumulator, so it preserves colon-freeness. -/
theorem natCharsAux_ne_colon : ∀ (fuel n : Nat) (acc : List Char),
    (∀ c ∈ acc, c ≠ ':') → ∀ c ∈ natCharsAux fuel n acc, c ≠ ':' := by
  intro fuel
  induction fuel with
  | zero => intro n acc h c hc; exact h c hc
  | succ fuel ih =>
    intro n acc h c hc
    by_cases h10 : n < 10
    · rw [show natCharsAux (fuel + 1) n acc = Nat.digitChar n :: acc from
        by simp [natCharsAux, h10]] at hc
      rcases List.mem_cons.1 hc with rfl | hc
      · exact digitChar_ne_colon n h10
      · exact h c hc
    · rw [show natCharsAux (fuel + 1) n acc =
          natCharsAux fuel (n / 10) (Nat.digitChar (n % 10) :: acc) from
        by simp [natCharsAux, h10]] at hc
      refine ih (n / 10) _ ?_ c hc
      intro c' hc'
      rcases List.mem_cons.1 hc' with rfl | hc'
      · exact digitChar_ne_colon _ (by omega)
      · exact h c' hc'

/-- Decimal renderings contain no colon. -/
theorem natChars_ne_colon (n : Nat) : ∀ c ∈ natChars n, c ≠ ':' :=
  natCharsAux_ne_colon (n + 1) n [] (by simp)

/-- Two-decimal renderings contain no colon. -/
theorem formatFixed2_ne_colon (q : ℚ) : ∀ c ∈ formatFixed2 q, c ≠ ':' := by
  intro c hc
  simp only [formatFixed2] at hc
  rw [List.mem_append] at hc
  rcases hc with hc | hc
  · exact natChars_ne_colon _ c hc
  · rw [List.mem_cons] at hc
    rcases hc with rfl | hc
    · decide
    · rw [List.mem_append] at hc
      rcases hc with hc | hc
      · split at hc
        · rw [List.mem_singleton] at hc; subst hc; decide
        · simp at hc
      · exact natChars_ne_colon _ c hc

/-- The decimal renderer is correct: folding the decimal-decode step over
its output extends the accumulated value by the rendered number.  The
multiplier `B` is the power of ten spanning the rendered digits. -/
theorem charsVal_foldAux : ∀ (fuel n : Nat), n < 10 ^ fuel →
    ∀ (acc : List Char) (v : Nat),
      ∃ B, 0 < B ∧ n < B ∧
        (natCharsAux fuel n acc).foldl
            (fun a c => 10 * a + (c.toNat - 48)) v =
          acc.foldl (fun a c => 10 * a + (c.toNat - 48)) (v * B + n) := by
  intro fuel
  induction fuel with
  | zero =>
    intro n hn acc v
    have hn0 : n = 0 := by simpa using hn
    subst hn0
    exact ⟨1, Nat.one_pos, Nat.zero_lt_one, by simp [natCharsAux]⟩
  | succ fuel ih =>
    intro n hn acc v
    by_cases h10 : n < 10
    · refine ⟨10, by omega, h10, ?_⟩
      have hstep : natCharsAux (fuel + 1) n acc = Nat.digitChar n :: acc := by
        simp [natCharsAux, h10]
      rw [hstep, List.foldl_cons, digitChar_toNat n h10, Nat.mul_comm 10 v]
    · have hquot : n / 10 < 10 ^ fuel := by
        rw [Nat.div_lt_iff_lt_mul (by omega)]
        calc n < 10 ^ (fuel + 1) := hn
          _ = 10 ^ fuel * 10 := pow_succ 10 fuel
      have hstep : natCharsAux (fuel + 1) n acc =
          natCharsAux fuel (n / 10) (Nat.digitChar (n % 10) :: acc) := by
        simp [natCharsAux, h10]
      rcases ih (n / 10) hquot (Nat.digitChar (n % 10) :: acc) v with
        ⟨B, hB, hlt, heq⟩
      refine ⟨B * 10, by omega, by omega, ?_⟩
      rw [hstep, heq, List.foldl_cons, digitChar_toNat _ (by omega)]
      congr 1
      have hdm := Nat.div_add_mod n 10
      calc 10 * (v * B + n / 10) + n % 10
          = v * (B * 10) + (10 * (n / 10) + n % 10) := by ring
        _ = v * (B * 10) + n := by rw [hdm]

/-- The rendered decimal text of `n` denotes `n`. -/
theorem charsVal_natChars (n : Nat) : charsVal (natChars n) = n := by
  have hfuel : n < 10 ^ (n + 1) :=
    lt_of_lt_of_le (Nat.lt_pow_self (by omega) n)
      (Nat.pow_le_pow_right (by omega) (Nat.le_succ n))
  rcases charsVal_foldAux (n + 1) n hfuel [] 0 with ⟨B, _, _, heq⟩
  show (natCharsAux (n + 1) n []).foldl
    (fun a c => 10 * a + (c.toNat - 48)) 0 = n
  rw [heq]
  simp

/-- A leading zero character does not change the decoded value. -/
theorem charsVal_pad (l : List Char) : charsVal ('0' :: l) = charsVal l := by
  unfold charsVal
  rw [List.foldl_cons]
  have h : 10 * 0 + ('0'.toNat - 48) = 0 := rfl
  rw [h]

/-- Appending preserves the character-list view. -/
theorem data_append (a b : String) : (a ++ b).data = a.data ++ b.data := rfl

/-- Every string starts with itself followed by anything. -/
theorem strPrefixOf_self_append (p s : String) :
    strPrefixOf p (p ++ s) = true := by
  unfold strPrefixOf
  rw [data_append]
  exact List.isPrefixOf_iff_prefix.2 (List.prefix_append _ _)

/-- The pixel key never matches the area line. -/
theorem pixelsKey_not_areaLine (s : String) :
    strPrefixOf pixelsKey (areaKey ++ s) = false := rfl

/-- The pixel key never matches the human-readable pixel line (the match
is case-sensitive). -/
theorem pixelsKey_not_humanPixels (s : String) :
    strPrefixOf pixelsKey ("Rooftop Pixels: " ++ s) = false := rfl

/-- The area key never matches the human-readable pixel line. -/
theorem areaKey_not_humanPixels (s : String) :
    strPrefixOf areaKey ("Rooftop Pixels: " ++ s) = false := rfl

/-- The pixel key never matches the human-readable area line. -/
theorem pixelsKey_not_humanArea (s t : String) :
    strPrefixOf pixelsKey (("Estimated Rooftop Area: " ++ s) ++ t) = false :=
  rfl

/-- The area key never matches the human-readable area line. -/
theorem areaKey_not_humanArea (s t : String) :
    strPrefixOf areaKey (("Estimated Rooftop Area: " ++ s) ++ t) = false :=
  rfl

/-- The pixel key never matches the missing-file error line. -/
theorem pixelsKey_not_errorLine (s t : String) :
    strPrefixOf pixelsKey (("Error: Image file " ++ s) ++ t) = false := rfl

/-- The area key never matches the missing-file error line. -/
theorem areaKey_not_errorLine (s t : String) :
    strPrefixOf areaKey (("Error: Image file " ++ s) ++ t) = false := rfl

/-- Splitting a pixel line on colons recovers exactly the colon-free
payload after the key. -/
theorem splitColonSecond_pixelsKey (payload : List Char)
    (h : ∀ c ∈ payload, c ≠ ':') :
    splitColonSecond (pixelsKey ++ String.mk payload) = String.mk payload := by
  unfold splitColonSecond
  have h2 : ((pixelsKey ++ String.mk payload).data.dropWhile
      (fun c => c != ':')).drop 1 = payload := rfl
  rw [h2]
  congr 1
  rw [List.takeWhile_eq_self_iff]
  intro c hc
  exact bne_iff_ne.2 (h c hc)

/-- Splitting an area line on colons recovers exactly the colon-free
payload after the key. -/
theorem splitColonSecond_areaKey (payload : List Char)
    (h : ∀ c ∈ payload, c ≠ ':') :
    splitColonSecond (areaKey ++ String.mk payload) = String.mk payload := by
  unfold splitColonSecond
  have h2 : ((areaKey ++ String.mk payload).data.dropWhile
      (fun c => c != ':')).drop 1 = payload := rfl
  rw [h2]
  congr 1
  rw [List.takeWhile_eq_self_iff]
  intro c hc
  exact bne_iff_ne.2 (h c hc)

/-- For a pixel count `n`, the rounded hundredths of the area
`n * PIXEL_AREA_M2` are exactly `9 * n`: rounding to two decimals loses
nothing because the area is an exact multiple of 1/100. -/
theorem round_area (n : Nat) :
    (round (100 * ((n : ℚ) * PIXEL_AREA_M2))).toNat = 9 * n := by
  have h : (100 : ℚ) * ((n : ℚ) * PIXEL_AREA_M2) = ((9 * n : Nat) : ℚ) := by
    simp only [PIXEL_AREA_M2]
    push_cast
    ring
  rw [h, round_natCast, Int.toNat_natCast]

/-- Single-digit numbers render as their digit character. -/
theorem natChars_lt10 : ∀ m < 10, natChars m = [Nat.digitChar m] := by
  decide

/-- Two-digit numbers render as two characters. -/
theorem natChars_len_two : ∀ m < 100, 10 ≤ m → (natChars m).length = 2 := by
  decide

/-- The two-decimal rendering of a pixel-count area splits at the decimal
point into an integer part and exactly two fractional digits, and the two
parts decode to exactly the area. -/
theorem formatFixed2_area (n : Nat) :
    ∃ ip fp : List Char,
      formatFixed2 ((n : ℚ) * PIXEL_AREA_M2) = ip ++ '.' :: fp ∧
      fp.length = 2 ∧
      (charsVal ip : ℚ) + (charsVal fp : ℚ) / 100 =
        (n : ℚ) * PIXEL_AREA_M2 := by
  refine ⟨natChars (9 * n / 100),
    (if 9 * n % 100 < 10 then ['0'] else []) ++ natChars (9 * n % 100),
    ?_, ?_, ?_⟩
  · simp only [formatFixed2, round_area]
  · by_cases hr : 9 * n % 100 < 10
    · rw [if_pos hr, natChars_lt10 _ hr]
      simp
    · rw [if_neg hr]
      simp [natChars_len_two (9 * n % 100) (by omega) (by omega)]
  · have hip : charsVal (natChars (9 * n / 100)) = 9 * n / 100 :=
      charsVal_natChars _
    have hfp : charsVal ((if 9 * n % 100 < 10 then ['0'] else []) ++
        natChars (9 * n % 100)) = 9 * n % 100 := by
      by_cases hr : 9 * n % 100 < 10
      · rw [if_pos hr, List.singleton_append, charsVal_pad]
        exact charsVal_natChars _
      · rw [if_neg hr, List.nil_append]
        exact charsVal_natChars _
    rw [hip, hfp]
    have hdm : (9 * n / 100) * 100 + 9 * n % 100 = 9 * n := by omega
    have hq : ((9 * n / 100 : Nat) : ℚ) + ((9 * n % 100 : Nat) : ℚ) / 100 =
        ((9 * n : Nat) : ℚ) / 100 := by
      field_simp
      exact_mod_cast hdm
    rw [hq]
    simp only [PIXEL_AREA_M2]
    push_cast
    ring

/-- Claim C4: the reported rooftop area is the pixel count times exactly
0.09 (the per-pixel area constant is the exact rational 9/100), the
`ROOFTOP_AREA` line carries the two-decimal rendering of that product, and
the rendered value — integer part plus two fractional digits — denotes the
product exactly (the two-decimal rounding loses nothing). -/
theorem c4_area_formula (model : Model) (img : Image) :
    ((infer_full_mask model img).2 : ℚ) * PIXEL_AREA_M2 =
      ((infer_full_mask model img).2 : ℚ) * (9 / 100) ∧
    areaKey ++ String.mk (formatFixed2
        (((infer_full_mask model img).2 : ℚ) * PIXEL_AREA_M2)) ∈
      mainOutput model img ∧
    ∃ ip fp : List Char,
      formatFixed2 (((infer_full_mask model img).2 : ℚ) * PIXEL_AREA_M2) =
        ip ++ '.' :: fp ∧
      fp.length = 2 ∧
      (charsVal ip : ℚ) + (charsVal fp : ℚ) / 100 =
        ((infer_full_mask model img).2 : ℚ) * PIXEL_AREA_M2 :=
  ⟨rfl, by simp [mainOutput], formatFixed2_area (infer_full_mask model img).2⟩

/-- A key-prefixed payload line is never a sentinel line. -/
theorem pixelsLine_ne_start (s : String) :
    ((pixelsKey ++ s) == "RESULTS_START") = false := rfl

/-- A key-prefixed payload line is never a sentinel line. -/
theorem pixelsLine_ne_end (s : String) :
    ((pixelsKey ++ s) == "RESULTS_END") = false := rfl

/-- A key-prefixed payload line is never a sentinel line. -/
theorem areaLine_ne_start (s : String) :
    ((areaKey ++ s) == "RESULTS_START") = false := rfl

/-- A key-prefixed payload line is never a sentinel line. -/
theorem areaLine_ne_end (s : String) :
    ((areaKey ++ s) == "RESULTS_END") = false := rfl

/-- The human-readable pixel line is never a sentinel line. -/
theorem humanPixels_ne_start (s : String) :
    ((("Rooftop Pixels: " ++ s)) == "RESULTS_START") = false := rfl

/-- The human-readable pixel line is never a sentinel line. -/
theorem humanPixels_ne_end (s : String) :
    ((("Rooftop Pixels: " ++ s)) == "RESULTS_END") = false := rfl

/-- The human-readable area line is never a sentinel line. -/
theorem humanArea_ne_start (s t : String) :
    ((("Estimated Rooftop Area: " ++ s) ++ t) == "RESULTS_START") = false :=
  rfl

/-- The human-readable area line is never a sentinel line. -/
theorem humanArea_ne_end (s t : String) :
    ((("Estimated Rooftop Area: " ++ s) ++ t) == "RESULTS_END") = false :=
  rfl

/-- Claim C5: the stdout of a successful run consists of free-form
progress lines followed by the four-line sentinel block, in order; the
caller's prefix scan recovers exactly the two payloads, it would recover
them just as well with the sentinel lines removed, and the pixel payload
denotes the pixel count. -/
theorem c5_stdout_contract (model : Model) (img : Image) :
    (∃ pre : List String,
      mainOutput model img = pre ++
        ["RESULTS_START",
         pixelsKey ++ String.mk (natChars (infer_full_mask model img).2),
         areaKey ++ String.mk (formatFixed2
           (((infer_full_mask model img).2 : ℚ) * PIXEL_AREA_M2)),
         "RESULTS_END"]) ∧
    parseResults (mainOutput model img) =
      (some (String.mk (natChars (infer_full_mask model img).2)),
       some (String.mk (formatFixed2
         (((infer_full_mask model img).2 : ℚ) * PIXEL_AREA_M2)))) ∧
    parseResults
        ((mainOutput model img).filter
          (fun l => !(l == "RESULTS_START") && !(l == "RESULTS_END"))) =
      parseResults (mainOutput model img) ∧
    charsVal (natChars (infer_full_mask model img).2) =
      (infer_full_mask model img).2 := by
  refine ⟨⟨["Loading model...", "Reading image...", "Running inference...",
    "Rooftop Pixels: " ++ String.mk (natChars (infer_full_mask model img).2),
    "Estimated Rooftop Area: " ++ String.mk (formatFixed2
      (((infer_full_mask model img).2 : ℚ) * PIXEL_AREA_M2)) ++ " m²"],
    rfl⟩, ?_, ?_, charsVal_natChars _⟩
  · simp +decide [parseResults, mainOutput, strPrefixOf_self_append,
      pixelsKey_not_areaLine, pixelsKey_not_humanPixels,
      areaKey_not_humanPixels, pixelsKey_not_humanArea,
      areaKey_not_humanArea,
      splitColonSecond_pixelsKey (natChars (infer_full_mask model img).2)
        (natChars_ne_colon _),
      splitColonSecond_areaKey
        (formatFixed2 (((infer_full_mask model img).2 : ℚ) * PIXEL_AREA_M2))
        (formatFixed2_ne_colon _)]
  · simp +decide [parseResults, mainOutput, strPrefixOf_self_append,
      pixelsKey_not_areaLine, pixelsKey_not_humanPixels,
      areaKey_not_humanPixels, pixelsKey_not_humanArea,
      areaKey_not_humanArea, pixelsLine_ne_start, pixelsLine_ne_end,
      areaLine_ne_start, areaLine_ne_end, humanPixels_ne_start,
      humanPixels_ne_end, humanArea_ne_start, humanArea_ne_end]

/-- Claim C6: invoked with an argument count other than one positional
argument, or with a path that does not exist, the runner exits with status
1 after printing a message (one that contains the missing path in the
nonexistent-path case) and emits no RESULTS block: no sentinel line and
nothing the caller's prefix scan would extract. -/
theorem c6_runner_rejects (argv : List String) (pathExists : String → Bool)
    (runMain : String → RunResult)
    (h : argv.length ≠ 2 ∨ ∃ a p, argv = [a, p] ∧ pathExists p = false) :
    (runnerEntry argv pathExists runMain).exitCode = 1 ∧
    (argv.length ≠ 2 → (runnerEntry argv pathExists runMain).stdout =
      ["Usage: python modeltester_UI.py <image_path>"]) ∧
    (∀ a p, argv = [a, p] → pathExists p = false →
      (runnerEntry argv pathExists runMain).stdout =
        ["Error: Image file " ++ p ++ " not found"] ∧
      ∃ pre post, ("Error: Image file " ++ p ++ " not found").data =
        pre ++ (p.data ++ post)) ∧
    parseResults (runnerEntry argv pathExists runMain).stdout =
      (none, none) ∧
    "RESULTS_START" ∉ (runnerEntry argv pathExists runMain).stdout := by
  have herr : ∀ a p : String, argv = [a, p] → pathExists p = false →
      runnerEntry argv pathExists runMain =
        ⟨1, ["Error: Image file " ++ p ++ " not found"]⟩ := by
    intro a p heq hpe
    subst heq
    unfold runnerEntry
    rw [dif_pos (show ([a, p] : List String).length = 2 from rfl)]
    show (if pathExists p = true then _ else _) = _
    rw [hpe]
    simp
  have husage : argv.length ≠ 2 →
      runnerEntry argv pathExists runMain =
        ⟨1, ["Usage: python modeltester_UI.py <image_path>"]⟩ := by
    intro hlen
    unfold runnerEntry
    rw [dif_neg hlen]
  have hcore : runnerEntry argv pathExists runMain =
        ⟨1, ["Usage: python modeltester_UI.py <image_path>"]⟩ ∨
      ∃ p : String, runnerEntry argv pathExists runMain =
        ⟨1, ["Error: Image file " ++ p ++ " not found"]⟩ := by
    rcases h with hlen | ⟨a, p, heq, hpe⟩
    · exact Or.inl (husage hlen)
    · exact Or.inr ⟨p, herr a p heq hpe⟩
  refine ⟨?_, fun hlen => by rw [husage hlen], ?_, ?_, ?_⟩
  · rcases hcore with hc | ⟨p, hc⟩ <;> rw [hc]
  · intro a p heq hpe
    refine ⟨by rw [herr a p heq hpe], "Error: Image file ".data,
      " not found".data, ?_⟩
    rw [data_append, data_append, List.append_assoc]
  · rcases hcore with hc | ⟨p, hc⟩ <;> rw [hc]
    · decide
    · show parseResults [("Error: Image file " ++ p) ++ " not found"] = _
      simp [parseResults, pixelsKey_not_errorLine, areaKey_not_errorLine]
  · rcases hcore with hc | ⟨p, hc⟩ <;> rw [hc]
    · decide
    · show "RESULTS_START" ∉ [("Error: Image file " ++ p) ++ " not found"]
      intro hmem
      rw [List.mem_singleton] at hmem
      have h1 : "RESULTS_START".data.head? = some 'R' := rfl
      rw [hmem] at h1
      have h2 : (("Error: Image file " ++ p) ++ " not found").data.head? =
        some 'E' := rfl
      rw [h1] at h2
      exact absurd h2 (by decide)

/-- Witness for `c6_runner_rejects` at a one-element argument vector. -/
theorem c6_runner_rejects_witness :
    (argvOne.length ≠ 2 ∨
      ∃ a p, argvOne = [a, p] ∧ pathAlways p = false) ∧
    ((runnerEntry argvOne pathAlways runMainStub).exitCode = 1 ∧
      (argvOne.length ≠ 2 →
        (runnerEntry argvOne pathAlways runMainStub).stdout =
          ["Usage: python modeltester_UI.py <image_path>"]) ∧
      (∀ a p, argvOne = [a, p] → pathAlways p = false →
        (runnerEntry argvOne pathAlways runMainStub).stdout =
          ["Error: Image file " ++ p ++ " not found"] ∧
        ∃ pre post, ("Error: Image file " ++ p ++ " not found").data =
          pre ++ (p.data ++ post)) ∧
      parseResults (runnerEntry argvOne pathAlways runMainStub).stdout =
        (none, none) ∧
      "RESULTS_START" ∉
        (runnerEntry argvOne pathAlways runMainStub).stdout) :=
  ⟨Or.inl (by decide),
   c6_runner_rejects argvOne pathAlways runMainStub (Or.inl (by decide))⟩

/-- Claim C8: when the input raster is unreadable or has fewer than three
bands, the load step fails with an `ImageReadError` and the run aborts
with a nonzero exit status, reporting no results. -/
theorem c8_load_error (model : Model) (f : RasterFile)
    (h : f.readable = false ∨ f.bands < 3) :
    (∃ e, loadImage f = Except.error e) ∧
    (mainRun model f).exitCode ≠ 0 ∧
    parseResults (mainRun model f).stdout = (none, none) ∧
    "RESULTS_START" ∉ (mainRun model f).stdout := by
  have herr : ∃ e, loadImage f = Except.error e := by
    unfold loadImage
    rcases h with h | h
    · rw [if_pos h]; exact ⟨_, rfl⟩
    · by_cases hr : f.readable = false
      · rw [if_pos hr]; exact ⟨_, rfl⟩
      · rw [if_neg hr, if_pos h]; exact ⟨_, rfl⟩
  rcases herr with ⟨e, he⟩
  have hm : mainRun model f = ⟨1, ["Loading model...", "Reading image..."]⟩ := by
    unfold mainRun
    rw [he]
  exact ⟨⟨e, he⟩, by rw [hm]; decide, by rw [hm]; decide, by rw [hm]; decide⟩

/-- Witness for `c8_load_error` at an unreadable file. -/
theorem c8_load_error_witness :
    (badFile.readable = false ∨ badFile.bands < 3) ∧
    ((∃ e, loadImage badFile = Except.error e) ∧
      (mainRun modelZero badFile).exitCode ≠ 0 ∧
      parseResults (mainRun modelZero badFile).stdout = (none, none) ∧
      "RESULTS_START" ∉ (mainRun modelZero badFile).stdout) :=
  ⟨Or.inl rfl, c8_load_error modelZero badFile (Or.inl rfl)⟩

/-- Claim C10: for an image with height or width below 128, no patches are
generated, inference returns an all-zero mask and a zero total without
ever invoking the model (any two models give identical results), and the
run reports `ROOFTOP_PIXELS:0` and `ROOFTOP_AREA:0.00`. -/
theorem c10_undersized_image (model model' : Model) (img : Image)
    (h : img.H < 128 ∨ img.W < 128) :
    (extract_patches img 128 128).1 = [] ∧
    (infer_full_mask model img).2 = 0 ∧
    (∀ i j, (infer_full_mask model img).1.val i j = 0) ∧
    infer_full_mask model img = infer_full_mask model' img ∧
    pixelsKey ++ "0" ∈ mainOutput model img ∧
    areaKey ++ "0.00" ∈ mainOutput model img := by
  have hpos : (extract_patches img 128 128).2.1 = [] := positions_eq_nil img h
  have hpatch : (extract_patches img 128 128).1 = [] := by
    have hl := extract_patches_lengths img 128 128
    rw [hpos] at hl
    exact List.eq_nil_of_length_eq_zero hl
  have hrun : ∀ m : Model, infer_full_mask m img =
      (⟨img.H, img.W, fun _ _ => 0⟩, 0) := by
    intro m
    show ((extract_patches img PATCH_SIZE STRIDE).1.zip
      (extract_patches img PATCH_SIZE STRIDE).2.1).foldl
        (stitchStep m PATCH_SIZE) (⟨img.H, img.W, fun _ _ => 0⟩, 0) = _
    have hp' : (extract_patches img PATCH_SIZE STRIDE).1 = [] := hpatch
    rw [hp']
    rfl
  refine ⟨hpatch, by rw [hrun model], fun i j => by rw [hrun model],
    by rw [hrun model, hrun model'], ?_, ?_⟩
  · have hline : pixelsKey ++ "0" =
        pixelsKey ++ String.mk (natChars (infer_full_mask model img).2) := by
      rw [hrun model]
      rfl
    rw [hline]
    simp [mainOutput]
  · have hline : areaKey ++ "0.00" =
        areaKey ++ String.mk (formatFixed2
          (((infer_full_mask model img).2 : ℚ) * PIXEL_AREA_M2)) := by
      rw [hrun model]
      show areaKey ++ "0.00" =
        areaKey ++ String.mk (formatFixed2 (((0 : Nat) : ℚ) * PIXEL_AREA_M2))
      have hf : formatFixed2 (((0 : Nat) : ℚ) * PIXEL_AREA_M2) =
          ['0', '.', '0', '0'] := by
        simp only [formatFixed2, round_area]
        decide
      rw [hf]
    rw [hline]
    simp [mainOutput]

/-- Witness for `c10_undersized_image` at the 100×100 image. -/
theorem c10_undersized_image_witness :
    (img100.H < 128 ∨ img100.W < 128) ∧
    ((extract_patches img100 128 128).1 = [] ∧
      (infer_full_mask modelZero img100).2 = 0 ∧
      (∀ i j, (infer_full_mask modelZero img100).1.val i j = 0) ∧
      infer_full_mask modelZero img100 = infer_full_mask modelZero img100 ∧
      pixelsKey ++ "0" ∈ mainOutput modelZero img100 ∧
      areaKey ++ "0.00" ∈ mainOutput modelZero img100) :=
  ⟨Or.inl (by decide),
   c10_undersized_image modelZero modelZero img100 (Or.inl (by decide))⟩

end Helioscope
